import Mathlib

/-!
Shallow embedding of the FolderCompare Rust sources
(`src/Rust/src/customhashset.rs`, `src/Rust/src/filedata.rs`,
`src/Rust/src/main.rs`, `src/Rust/src/utils.rs`).

Machine integers (`usize`) are modelled as `Nat`.  A Rust operation that can
panic (the `%` operator with a zero divisor, and slice indexing) is modelled
in `Option`: `none` is a panic.  Mutation (`&mut self`) is modelled by
returning the updated table alongside the Rust return value; an `&self`
method takes the table as a plain value, so it can mutate nothing by
construction.
-/

set_option autoImplicit false

/-- Rust integer remainder `a % b` on `usize`: panics (`none`) when the
divisor is zero, otherwise the ordinary remainder. -/
def rustMod (a b : Nat) : Option Nat :=
  if b = 0 then none else some (a % b)

/-- Embedding of `struct CustomHashSet<T>` (customhashset.rs:13-22):
a vector of bucket vectors, the bucket count, and the two strategy
functions stored as fields. -/
structure CustomHashSet (T : Type) where
  buckets : List (List T)
  buckets_required : Nat
  eq_fn : T → T → Bool
  hash_fn : T → Nat

/-- Embedding of `create_buckets` (customhashset.rs:218-225): a vector of
`buckets_required` empty buckets.  `default_bucket_size` is only a capacity
hint in the source, so it does not appear in the value. -/
def create_buckets (T : Type) (buckets_required : Nat) : List (List T) :=
  List.replicate buckets_required []

namespace CustomHashSet

variable {T : Type}

/-- Embedding of `CustomHashSet::new` (customhashset.rs:26-42).  The source
performs no validation of `buckets_required`; `default_bucket_size` is a
capacity hint only. -/
def new (eq_fn : T → T → Bool) (hash_fn : T → Nat)
    (buckets_required default_bucket_size : Nat) : CustomHashSet T :=
  let _ := default_bucket_size
  { buckets := create_buckets T buckets_required
    buckets_required := buckets_required
    eq_fn := eq_fn
    hash_fn := hash_fn }

/-- Embedding of `CustomHashSet::insert` (customhashset.rs:45-65): hash the
value, take the remainder by `buckets_required` (panic on zero), index the
bucket (panic when out of bounds), linearly scan with `eq_fn`; on a match
return `false` without mutation, otherwise push and return `true`. -/
def insert (t : CustomHashSet T) (value : T) : Option (CustomHashSet T × Bool) := do
  let index ← rustMod (t.hash_fn value) t.buckets_required
  let bucket ← t.buckets[index]?
  if bucket.any (fun x => t.eq_fn x value) then
    some (t, false)
  else
    some ({ t with buckets := t.buckets.set index (bucket ++ [value]) }, true)

/-- Embedding of `CustomHashSet::contains` (customhashset.rs:68-81). -/
def contains (t : CustomHashSet T) (value : T) : Option Bool := do
  let index ← rustMod (t.hash_fn value) t.buckets_required
  let bucket ← t.buckets[index]?
  some (bucket.any (fun x => t.eq_fn x value))

/-- Embedding of `CustomHashSet::remove` (customhashset.rs:84-104): remove
the first element of the bucket that `eq_fn`-matches, keeping the order of
the rest (`Vec::remove`). -/
def remove (t : CustomHashSet T) (value : T) : Option (CustomHashSet T × Bool) := do
  let index ← rustMod (t.hash_fn value) t.buckets_required
  let bucket ← t.buckets[index]?
  match bucket.findIdx? (fun x => t.eq_fn x value) with
  | some pos => some ({ t with buckets := t.buckets.set index (bucket.eraseIdx pos) }, true)
  | none => some (t, false)

/-- Embedding of `CustomHashSet::iter` (customhashset.rs:151-153): the
elements in bucket order (bucket 0..N, insertion order inside a bucket). -/
def iterList (t : CustomHashSet T) : List T :=
  t.buckets.flatten

/-- Embedding of `CustomHashSet::difference` (customhashset.rs:107-115):
walk `self.iter()` and keep each item for which `other.contains` is false.
`other.contains` can panic, so the result is in `Option`. -/
def difference (t other : CustomHashSet T) : Option (List T) :=
  t.iterList.foldlM
    (fun diff item => do
      let c ← other.contains item
      pure (if c then diff else diff ++ [item]))
    []

/-- One step of the `rebuild` loop body (customhashset.rs:134-141): hash the
item with the table's hash function and push it onto the matching new
bucket.  No equality check is involved. -/
def placeItem (hash_fn : T → Nat) (buckets_required : Nat)
    (bs : List (List T)) (item : T) : Option (List (List T)) := do
  let index ← rustMod (hash_fn item) buckets_required
  let bucket ← bs[index]?
  pure (bs.set index (bucket ++ [item]))

/-- Embedding of `CustomHashSet::rebuild` (customhashset.rs:128-147): drain
every old bucket in order and redistribute each item into a fresh bucket
array using the same hash function. -/
def rebuild (t : CustomHashSet T) (buckets_required default_bucket_size : Nat) :
    Option (CustomHashSet T) := do
  let _ := default_bucket_size
  let new_buckets ← t.buckets.flatten.foldlM
    (placeItem t.hash_fn buckets_required) (create_buckets T buckets_required)
  pure { t with buckets := new_buckets, buckets_required := buckets_required }

/-- Embedding of `CustomHashSet::len` (customhashset.rs:157-159): the sum of
the bucket sizes. -/
def len (t : CustomHashSet T) : Nat :=
  (t.buckets.map List.length).sum

/-- Embedding of `CustomHashSet::is_empty` (customhashset.rs:163-165). -/
def is_empty (t : CustomHashSet T) : Bool :=
  t.buckets.all List.isEmpty

/-- Well-formedness maintained by construction: the bucket vector has
exactly `buckets_required` entries. -/
def wf (t : CustomHashSet T) : Prop :=
  t.buckets.length = t.buckets_required

end CustomHashSet

/-- One well-formed call against the table, for stating that any call
sequence is panic-free. -/
inductive TableOp (T : Type) where
  | ins : T → TableOp T
  | rem : T → TableOp T
  | con : T → TableOp T

/-- Run a single call against the table; `contains` leaves it unchanged. -/
def CustomHashSet.runOp {T : Type} (t : CustomHashSet T) : TableOp T → Option (CustomHashSet T)
  | .ins v => (t.insert v).map Prod.fst
  | .rem v => (t.remove v).map Prod.fst
  | .con v => (t.contains v).map (fun _ => t)

/-- Run a sequence of calls against the table. -/
def CustomHashSet.runOps {T : Type} (t : CustomHashSet T) : List (TableOp T) → Option (CustomHashSet T)
  | [] => some t
  | op :: ops => do
    let t' ← t.runOp op
    t'.runOps ops

/-- Embedding of `Sha2Value` (filedata.rs:25-28): a wrapper around a 32-byte
array, modelled as a list of bytes.  Rust `==` on it is the derived
field-wise structural equality. -/
structure Sha2Value where
  bytes : List Nat
deriving DecidableEq

/-- Embedding of `Sha2Value::default()` (`#[derive(Default)]` on a `[u8; 32]`
field): the all-zero 32-byte value. -/
def Sha2Value.zeroDefault : Sha2Value :=
  ⟨List.replicate 32 0⟩

/-- Embedding of the `FileData` record (filedata.rs:81-87) without its
phantom marker: file name, full path, size and (possibly defaulted) content
digest. -/
structure FileData where
  filename : String
  path : String
  size : Nat
  hash : Sha2Value
deriving DecidableEq

/-- Embedding of `PartialEq for FileData<UniqueName>` (filedata.rs:110-114):
file name only. -/
def eqName (a b : FileData) : Bool :=
  a.filename == b.filename

/-- Embedding of `Hash for FileData<UniqueName>` (filedata.rs:116-120): only
the file name is fed to the hasher, so the hash value is an arbitrary
hasher-determined function of the file name alone. -/
def hashName (hasher : String → Nat) (a : FileData) : Nat :=
  hasher a.filename

/-- Embedding of `PartialEq for FileData<UniqueNameSize>`
(filedata.rs:125-129): file name and size. -/
def eqNameSize (a b : FileData) : Bool :=
  a.filename == b.filename && a.size == b.size

/-- Embedding of `Hash for FileData<UniqueNameSize>` (filedata.rs:131-136):
file name and size are fed to the hasher, so the hash value is an arbitrary
hasher-determined function of that pair. -/
def hashNameSize (hasher : String → Nat → Nat) (a : FileData) : Nat :=
  hasher a.filename a.size

/-- Embedding of `PartialEq for FileData<UniqueHash>` (filedata.rs:141-145):
the source compares the content digest AND the size
(`self.hash == other.hash && self.size == other.size`). -/
def eqHash (a b : FileData) : Bool :=
  decide (a.hash = b.hash) && a.size == b.size

/-- Embedding of `Hash for FileData<UniqueHash>` (filedata.rs:147-151): only
the content digest is fed to the hasher. -/
def hashHash (hasher : Sha2Value → Nat) (a : FileData) : Nat :=
  hasher a.hash

/-- Embedding of the `FileDataCompareOption` enumeration
(filedata.rs:60-69). -/
inductive FileDataCompareOption where
  | Name
  | NameSize
  | Hash
deriving DecidableEq

/-- Embedding of `strum::ParseError`; the derived `from_str` only ever
produces `VariantNotFound`. -/
inductive StrumParseError where
  | VariantNotFound
deriving DecidableEq

/-- ASCII lower-casing of one code point, as Rust `eq_ignore_ascii_case`
folds each byte.  For ASCII code points the byte-level and code-point-level
foldings coincide, and non-ASCII code points are untouched by both. -/
def asciiLowerCode (n : Nat) : Nat :=
  if 65 ≤ n ∧ n ≤ 90 then n + 32 else n

/-- Embedding of Rust `str::eq_ignore_ascii_case`, the comparison strum uses
for `#[strum(ascii_case_insensitive)]`: the two strings are equal after
ASCII case folding. -/
def eqIgnoreAsciiCase (a b : String) : Bool :=
  a.data.map (fun c => asciiLowerCode c.toNat) ==
    b.data.map (fun c => asciiLowerCode c.toNat)

/-- Embedding of the strum-derived `FileDataCompareOption::from_str`
(filedata.rs:60-69): try the serialize token of each variant in declaration
order, ASCII-case-insensitively. -/
def FileDataCompareOption.fromString (s : String) :
    Except StrumParseError FileDataCompareOption :=
  if eqIgnoreAsciiCase s "name" then .ok .Name
  else if eqIgnoreAsciiCase s "namesize" then .ok .NameSize
  else if eqIgnoreAsciiCase s "hash" then .ok .Hash
  else .error .VariantNotFound

/-- Embedding of `parse_comparer` (filedata.rs:11-20): a missing or empty
string yields the default `Name`, anything else goes through the derived
`from_str`. -/
def parse_comparer (compstr : Option String) :
    Except StrumParseError FileDataCompareOption :=
  match compstr with
  | none => .ok .Name
  | some s => if s.isEmpty then .ok .Name else FileDataCompareOption.fromString s

/-- One `(name, path, size)` triple yielded by the directory walker
collaborator for a regular file. -/
structure DirEntry where
  fname : String
  fpath : String
  fsize : Nat

/-- Embedding of the per-file record construction in `scan_folder`
(main.rs:177-194): the walker's entries are supplied as a list and the
content-digest collaborator `hash_file` as a fallible function; the digest
is computed exactly when the comparer is `Hash`, otherwise the field is
filled with `Sha2Value::default()`. -/
def scan_folder (hash_file : String → Except Unit Sha2Value)
    (comparer : FileDataCompareOption) :
    List DirEntry → Except Unit (List FileData)
  | [] => .ok []
  | e :: es => do
    let h ← if comparer = .Hash then hash_file e.fpath else .ok Sha2Value.zeroDefault
    let rest ← scan_folder hash_file comparer es
    .ok ({ filename := e.fname, path := e.fpath, size := e.fsize, hash := h } :: rest)

/-! ### Concrete instances used to exercise the theorems -/

/-- Strategy pair used by the integer test harness
(custom_hash_test/src/main.rs:195-201): structural equality and the value
itself as its hash. -/
def natEq : Nat → Nat → Bool := fun a b => a == b

/-- Identity hash for the integer strategy. -/
def natId : Nat → Nat := fun a => a

/-- A small populated table: two buckets, elements 0 and 2 in bucket 0 and
element 1 in bucket 1 (exactly the layout insertion with `natId` yields). -/
def tblA : CustomHashSet Nat :=
  { buckets := [[0, 2], [1]], buckets_required := 2, eq_fn := natEq, hash_fn := natId }

/-- A second table with the same strategy functions: holds 2 and 1. -/
def tblB : CustomHashSet Nat :=
  { buckets := [[2], [1]], buckets_required := 2, eq_fn := natEq, hash_fn := natId }

/-- A concrete file record. -/
def fdCat : FileData :=
  { filename := "cat.txt", path := "a/cat.txt", size := 10, hash := Sha2Value.zeroDefault }

/-- Same name as `fdCat`, different path, size and digest. -/
def fdCatB : FileData :=
  { filename := "cat.txt", path := "b/cat.txt", size := 12, hash := ⟨[1]⟩ }

/-- Same (default) digest as `fdCat` but a different size and name. -/
def fdZero : FileData :=
  { filename := "other.bin", path := "b/other.bin", size := 11, hash := Sha2Value.zeroDefault }

/-- A digest collaborator that always fails, to show it is never consulted
outside `Hash` mode. -/
def failingDigest : String → Except Unit Sha2Value := fun _ => .error ()

/-- A total digest collaborator keyed on the path. -/
def pathDigest : String → Except Unit Sha2Value := fun p => .ok ⟨[p.length]⟩

/-- One walker entry. -/
def entryCat : DirEntry := { fname := "cat.txt", fpath := "a/cat.txt", fsize := 10 }

/-! ### Helper lemmas about the table embedding -/

theorem rustMod_of_pos (a n : Nat) (h : 1 ≤ n) : rustMod a n = some (a % n) := by
  have : n ≠ 0 := Nat.one_le_iff_ne_zero.mp h
  simp [rustMod, this]

theorem listDecompAt {α : Type} (l : List α) (i : Nat) (h : i < l.length) :
    l = l.take i ++ l[i] :: l.drop (i + 1) := by
  conv_lhs => rw [← List.take_append_drop i l]
  rw [List.getElem_cons_drop l i h]

namespace CustomHashSet

variable {T : Type}

theorem bucketIdx_lt (t : CustomHashSet T) (v : T)
    (hn : 1 ≤ t.buckets_required) (hwf : t.wf) :
    t.hash_fn v % t.buckets_required < t.buckets.length := by
  rw [hwf]
  exact Nat.mod_lt _ (Nat.lt_of_lt_of_le Nat.zero_lt_one hn)

theorem contains_eq_bucket (t : CustomHashSet T) (v : T)
    (hn : 1 ≤ t.buckets_required) (hwf : t.wf) :
    ∃ b, t.buckets[t.hash_fn v % t.buckets_required]? = some b ∧
      t.contains v = some (b.any (fun x => t.eq_fn x v)) := by
  have hlt := t.bucketIdx_lt v hn hwf
  refine ⟨t.buckets[t.hash_fn v % t.buckets_required], List.getElem?_eq_getElem hlt, ?_⟩
  simp [contains, rustMod_of_pos _ _ hn, List.getElem?_eq_getElem hlt]

theorem contains_isSome (t : CustomHashSet T) (v : T)
    (hn : 1 ≤ t.buckets_required) (hwf : t.wf) :
    ∃ c, t.contains v = some c := by
  obtain ⟨b, _, hc⟩ := t.contains_eq_bucket v hn hwf
  exact ⟨_, hc⟩

end CustomHashSet

theorem set_append_flatten_length {T : Type} :
    ∀ (bs : List (List T)) (i : Nat) (b : List T) (x : T), bs[i]? = some b →
      (bs.set i (b ++ [x])).flatten.length = bs.flatten.length + 1 := by
  intro bs
  induction bs with
  | nil => intro i b x h; simp at h
  | cons hd tl ih =>
    intro i b x h
    cases i with
    | zero =>
      simp only [List.getElem?_cons_zero, Option.some_inj] at h
      subst h
      simp only [List.set_cons_zero, List.flatten_cons, List.length_append,
        List.length_cons, List.length_nil]
      omega
    | succ j =>
      simp only [List.getElem?_cons_succ] at h
      simp only [List.set_cons_succ, List.flatten_cons, List.length_append, ih j b x h]
      omega

theorem set_append_flatten_mem {T : Type} :
    ∀ (bs : List (List T)) (i : Nat) (b : List T) (x : T), bs[i]? = some b →
      ∀ y : T, y ∈ (bs.set i (b ++ [x])).flatten ↔ y ∈ bs.flatten ∨ y = x := by
  intro bs
  induction bs with
  | nil => intro i b x h; simp at h
  | cons hd tl ih =>
    intro i b x h y
    cases i with
    | zero =>
      simp only [List.getElem?_cons_zero, Option.some_inj] at h
      subst h
      simp only [List.set_cons_zero, List.flatten_cons, List.mem_append, List.mem_singleton]
      tauto
    | succ j =>
      simp only [List.getElem?_cons_succ] at h
      simp only [List.set_cons_succ, List.flatten_cons, List.mem_append, ih j b x h y]
      tauto

namespace CustomHashSet

variable {T : Type}

theorem len_eq_flatten_length (t : CustomHashSet T) : t.len = t.iterList.length := by
  simp [len, iterList, List.length_flatten]

theorem insert_cases (t : CustomHashSet T) (v : T)
    (hn : 1 ≤ t.buckets_required) (hwf : t.wf) :
    ∃ b, t.buckets[t.hash_fn v % t.buckets_required]? = some b ∧
      ((b.any (fun x => t.eq_fn x v) = true ∧ t.insert v = some (t, false)) ∨
       (b.any (fun x => t.eq_fn x v) = false ∧
        t.insert v = some ({ t with
          buckets := t.buckets.set (t.hash_fn v % t.buckets_required) (b ++ [v]) }, true))) := by
  have hlt := t.bucketIdx_lt v hn hwf
  have hb : t.buckets[t.hash_fn v % t.buckets_required]? =
      some t.buckets[t.hash_fn v % t.buckets_required] := List.getElem?_eq_getElem hlt
  refine ⟨_, hb, ?_⟩
  by_cases hany :
      (t.buckets[t.hash_fn v % t.buckets_required]).any (fun x => t.eq_fn x v) = true
  · exact Or.inl ⟨hany, by simp [insert, rustMod_of_pos _ _ hn, hb]; simpa using hany⟩
  · rw [Bool.not_eq_true] at hany
    exact Or.inr ⟨hany, by simp [insert, rustMod_of_pos _ _ hn, hb]; simpa using hany⟩

end CustomHashSet

/-- C2: For a table with `bucket_count >= 1`, `insert(v)` computes
`h = hash_fn(v)` and `idx = h mod bucket_count`, linearly scans bucket `idx`
with `equal_fn`; if a stored element matches it returns `false` and the
table is completely unchanged, otherwise it appends `v` to bucket `idx` and
returns `true` (adding one to `len`).  Consequently, when `equal_fn(a,b)`
holds (together with the strategy invariant that equal values hash alike and
that matching `a` implies matching `b`), inserting `a` then `b` returns
`false` from the second insert and leaves the table — hence `len()` —
unchanged. -/
theorem insert_contract {T : Type} (t : CustomHashSet T)
    (hn : 1 ≤ t.buckets_required) (hwf : t.wf) :
    (∀ v : T, ∃ b, t.buckets[t.hash_fn v % t.buckets_required]? = some b ∧
        (b.any (fun x => t.eq_fn x v) = true → t.insert v = some (t, false)) ∧
        (b.any (fun x => t.eq_fn x v) = false →
          ∃ t', t.insert v = some (t', true) ∧
            t'.buckets = t.buckets.set (t.hash_fn v % t.buckets_required) (b ++ [v]) ∧
            t'.len = t.len + 1 ∧
            t'.buckets_required = t.buckets_required ∧
            t'.eq_fn = t.eq_fn ∧ t'.hash_fn = t.hash_fn)) ∧
    (∀ a b : T, t.eq_fn a b = true → t.hash_fn a = t.hash_fn b →
      (∀ x : T, t.eq_fn x a = true → t.eq_fn x b = true) →
      ∃ t₁ r₁, t.insert a = some (t₁, r₁) ∧ t₁.insert b = some (t₁, false)) := by
  constructor
  · intro v
    obtain ⟨b, hb, hcases⟩ := t.insert_cases v hn hwf
    refine ⟨b, hb, ?_, ?_⟩
    · intro hany
      rcases hcases with ⟨_, h⟩ | ⟨hfalse, _⟩
      · exact h
      · rw [hany] at hfalse; exact absurd hfalse (by simp)
    · intro hany
      rcases hcases with ⟨htrue, _⟩ | ⟨_, h⟩
      · rw [hany] at htrue; exact absurd htrue (by simp)
      · refine ⟨_, h, rfl, ?_, rfl, rfl, rfl⟩
        rw [CustomHashSet.len_eq_flatten_length, CustomHashSet.len_eq_flatten_length]
        exact set_append_flatten_length t.buckets _ b v hb
  · intro a b hab hhash hcong
    have hidx : t.hash_fn b % t.buckets_required = t.hash_fn a % t.buckets_required := by
      rw [hhash]
    obtain ⟨ba, hba, hcases⟩ := t.insert_cases a hn hwf
    rcases hcases with ⟨hdup, hins⟩ | ⟨hnew, hins⟩
    · refine ⟨t, false, hins, ?_⟩
      obtain ⟨bb, hbb, hcasesb⟩ := t.insert_cases b hn hwf
      rw [hidx, hba] at hbb
      obtain rfl : ba = bb := Option.some_inj.mp hbb
      rcases hcasesb with ⟨_, h⟩ | ⟨hnone, _⟩
      · exact h
      · exfalso
        obtain ⟨x, hx, hxa⟩ := List.any_eq_true.mp hdup
        have : ba.any (fun y => t.eq_fn y b) = true :=
          List.any_eq_true.mpr ⟨x, hx, hcong x hxa⟩
        rw [this] at hnone
        exact absurd hnone (by simp)
    · set t' : CustomHashSet T :=
        { t with buckets := t.buckets.set (t.hash_fn a % t.buckets_required) (ba ++ [a]) }
        with ht'
      refine ⟨t', true, hins, ?_⟩
      have hwf' : t'.wf := by
        show (t.buckets.set (t.hash_fn a % t.buckets_required) (ba ++ [a])).length =
          t.buckets_required
        rw [List.length_set]
        exact hwf
      have hn' : 1 ≤ t'.buckets_required := hn
      obtain ⟨bb, hbb, hcasesb⟩ := t'.insert_cases b hn' hwf'
      have hlt : t.hash_fn a % t.buckets_required < t.buckets.length :=
        t.bucketIdx_lt a hn hwf
      have hbb' : t'.buckets[t'.hash_fn b % t'.buckets_required]? = some (ba ++ [a]) := by
        show (t.buckets.set (t.hash_fn a % t.buckets_required) (ba ++ [a]))[
          t.hash_fn b % t.buckets_required]? = some (ba ++ [a])
        rw [hidx]
        simp [List.getElem?_set_self, hlt]
      rw [hbb'] at hbb
      obtain rfl : bb = ba ++ [a] := (Option.some_inj.mp hbb).symm
      rcases hcasesb with ⟨_, h⟩ | ⟨hnone, _⟩
      · exact h
      · exfalso
        have : (ba ++ [a]).any (fun y => t'.eq_fn y b) = true :=
          List.any_eq_true.mpr ⟨a, by simp, hab⟩
        rw [this] at hnone
        exact absurd hnone (by simp)

/-- Witness for C2 at a concrete table: 2 is already present in `tblA`, so
inserting it again returns `false` and leaves the table — hence `len` —
unchanged. -/
theorem insert_contract_witness : tblA.insert 2 = some (tblA, false) := by
  obtain ⟨b, hb, hdup, _⟩ := (insert_contract tblA (by decide) rfl).1 2
  have hconc : tblA.buckets[tblA.hash_fn 2 % tblA.buckets_required]? = some [0, 2] := rfl
  rw [hconc] at hb
  obtain rfl : b = [0, 2] := (Option.some_inj.mp hb).symm
  exact hdup (by decide)

theorem difference_loop {T : Type} (other : CustomHashSet T)
    (hc : ∀ x : T, ∃ c, other.contains x = some c) :
    ∀ (l acc : List T),
      (l.foldlM
        (fun diff item => do
          let c ← other.contains item
          pure (if c then diff else diff ++ [item]))
        acc : Option (List T))
      = some (acc ++ l.filter (fun x => decide (other.contains x = some false))) := by
  intro l
  induction l with
  | nil => intro acc; simp
  | cons x l ih =>
    intro acc
    obtain ⟨c, hcx⟩ := hc x
    have hstep :
        (List.foldlM (fun diff item => do
            let c ← other.contains item
            pure (if c then diff else diff ++ [item])) acc (x :: l) : Option (List T))
          = List.foldlM (fun diff item => do
            let c ← other.contains item
            pure (if c then diff else diff ++ [item])) (if c then acc else acc ++ [x]) l := by
      rw [List.foldlM_cons, hcx]
      rfl
    rw [hstep, ih]
    cases c
    · simp [List.filter_cons, hcx]
    · simp [List.filter_cons, hcx]

/-- C1: `difference(self, other)` returns exactly the elements of `self`
for which `other.contains` is `false`, in bucket iteration order (bucket
0..N, insertion order within a bucket) — the result is literally the
bucket-order element list filtered by `other.contains == false`.  Neither
table is mutated: both are taken by shared reference in the source, and in
this embedding `difference` returns only the result list. -/
theorem difference_filters_by_contains {T : Type} (t other : CustomHashSet T)
    (hn : 1 ≤ other.buckets_required) (hwf : other.wf) :
    ∃ l, t.difference other = some l ∧
      l = t.iterList.filter (fun x => decide (other.contains x = some false)) ∧
      ∀ x : T, x ∈ l ↔ x ∈ t.iterList ∧ other.contains x = some false := by
  have hc : ∀ x : T, ∃ c, other.contains x = some c := fun x =>
    other.contains_isSome x hn hwf
  refine ⟨_, ?_, rfl, ?_⟩
  · have := difference_loop other hc t.iterList []
    simpa [CustomHashSet.difference] using this
  · intro x
    simp [List.mem_filter]

/-- Witness for C1: `tblA` holds 0, 2, 1 (bucket order); `tblB` contains 2
and 1 but not 0, so the difference is exactly `[0]`. -/
theorem difference_filters_by_contains_witness : tblA.difference tblB = some [0] := by
  obtain ⟨l, hdiff, hfilter, _⟩ := difference_filters_by_contains tblA tblB (by decide) rfl
  rw [hdiff, hfilter]
  rfl

/-- C9: a (non-empty) table has no difference from itself: every element of
`self` lies in the bucket its hash selects and matches itself under the
equality function, so `contains` answers `true` for it and the filtered
result is empty. -/
theorem difference_with_self_empty {T : Type} (t : CustomHashSet T)
    (hn : 1 ≤ t.buckets_required) (hwf : t.wf)
    (hplace : ∀ (i : Nat) (b : List T) (e : T),
      t.buckets[i]? = some b → e ∈ b → t.hash_fn e % t.buckets_required = i)
    (hrefl : ∀ x ∈ t.iterList, t.eq_fn x x = true)
    (hne : t.is_empty = false) :
    t.difference t = some [] := by
  have hc : ∀ x : T, ∃ c, t.contains x = some c := fun x => t.contains_isSome x hn hwf
  have hall : ∀ x ∈ t.iterList, t.contains x = some true := by
    intro x hx
    obtain ⟨bx, hbmem, hxb⟩ := List.mem_flatten.mp hx
    obtain ⟨i, hi⟩ := List.mem_iff_getElem?.mp hbmem
    have hidx : t.hash_fn x % t.buckets_required = i := hplace i bx x hi hxb
    obtain ⟨b, hb, hcon⟩ := t.contains_eq_bucket x hn hwf
    rw [hidx, hi] at hb
    obtain rfl : bx = b := Option.some_inj.mp hb
    rw [hcon]
    exact congrArg some (List.any_eq_true.mpr ⟨x, hxb, hrefl x hx⟩)
  have hfilter : t.iterList.filter (fun x => decide (t.contains x = some false)) = [] := by
    rw [List.filter_eq_nil_iff]
    intro x hx
    simp [hall x hx]
  have := difference_loop t hc t.iterList []
  simpa [CustomHashSet.difference, hfilter] using this

/-- Witness for C9: the concrete table `tblA` (holding 0, 2, 1) has an empty
difference from itself. -/
theorem difference_with_self_empty_witness : tblA.difference tblA = some [] := by
  refine difference_with_self_empty tblA (by decide) rfl ?_ (by decide) rfl
  intro i b e hb he
  rcases i with _ | _ | n
  · have h0 : tblA.buckets[(0 : Nat)]? = some [0, 2] := rfl
    rw [h0] at hb
    obtain rfl : b = [0, 2] := (Option.some_inj.mp hb).symm
    simp only [List.mem_cons, List.mem_singleton] at he
    rcases he with rfl | rfl | he
    · rfl
    · rfl
    · simp at he
  · have h1 : tblA.buckets[(1 : Nat)]? = some [1] := rfl
    rw [h1] at hb
    obtain rfl : b = [1] := (Option.some_inj.mp hb).symm
    simp only [List.mem_singleton] at he
    subst he
    rfl
  · have h2 : tblA.buckets = [[0, 2], [1]] := rfl
    rw [h2] at hb
    simp [List.getElem?_cons_succ] at hb

theorem rebuild_fold {T : Type} (hf : T → Nat) (n : Nat) (hn : 1 ≤ n) :
    ∀ (l : List T) (bs : List (List T)), bs.length = n →
      ∃ bs', (l.foldlM (CustomHashSet.placeItem hf n) bs : Option (List (List T))) = some bs' ∧
        bs'.length = n ∧
        bs'.flatten.length = bs.flatten.length + l.length ∧
        (∀ y : T, y ∈ bs'.flatten ↔ y ∈ bs.flatten ∨ y ∈ l) ∧
        ((∀ (i : Nat) (b : List T) (e : T), bs[i]? = some b → e ∈ b → hf e % n = i) →
         (∀ (i : Nat) (b : List T) (e : T), bs'[i]? = some b → e ∈ b → hf e % n = i)) := by
  intro l
  induction l with
  | nil =>
    intro bs hlen
    exact ⟨bs, by simp, hlen, by simp, fun y => by simp, fun h => h⟩
  | cons x l ih =>
    intro bs hlen
    have hidx : hf x % n < bs.length := by
      rw [hlen]; exact Nat.mod_lt _ (by omega)
    have hb : bs[hf x % n]? = some bs[hf x % n] := List.getElem?_eq_getElem hidx
    have hstep : CustomHashSet.placeItem hf n bs x
        = some (bs.set (hf x % n) (bs[hf x % n] ++ [x])) := by
      simp [CustomHashSet.placeItem, rustMod_of_pos _ _ hn, hb]
    have hlen₁ : (bs.set (hf x % n) (bs[hf x % n] ++ [x])).length = n := by
      rw [List.length_set, hlen]
    obtain ⟨bs', hfold, hlen', hflat, hmem, hplace⟩ :=
      ih (bs.set (hf x % n) (bs[hf x % n] ++ [x])) hlen₁
    refine ⟨bs', ?_, hlen', ?_, ?_, ?_⟩
    · rw [List.foldlM_cons, hstep]
      exact hfold
    · rw [hflat, set_append_flatten_length bs (hf x % n) _ x hb]
      simp [List.length_cons]
      omega
    · intro y
      rw [hmem y, set_append_flatten_mem bs (hf x % n) _ x hb y]
      simp only [List.mem_cons]
      tauto
    · intro hpl
      apply hplace
      intro i b e hbi he
      by_cases hcase : i = hf x % n
      · rw [hcase] at hbi ⊢
        have hset : (bs.set (hf x % n) (bs[hf x % n] ++ [x]))[hf x % n]? =
            some (bs[hf x % n] ++ [x]) := by
          simp [List.getElem?_set_self, hidx]
        rw [hset] at hbi
        obtain rfl : b = bs[hf x % n] ++ [x] := (Option.some_inj.mp hbi).symm
        rcases List.mem_append.mp he with h | h
        · exact hpl _ _ _ hb h
        · simp only [List.mem_singleton] at h
          subst h
          rfl
      · have hset : (bs.set (hf x % n) (bs[hf x % n] ++ [x]))[i]? = bs[i]? :=
          List.getElem?_set_ne (fun hh => hcase hh.symm)
        rw [hset] at hbi
        exact hpl _ _ _ hbi he

/-- C6: for `new_bucket_count >= 1`, `rebuild` succeeds, preserves `len` and
membership (everything `contains` answered `true` for is still contained),
places every stored element in bucket `hash(element) mod new_bucket_count`,
uses the same hash function and never consults the equality function (the
result is identical for any equality function), and updates the bucket
count.  Membership preservation assumes the strategy invariant
`equal(a,b) ⇒ hash(a) = hash(b)` the spec requires of every strategy. -/
theorem rebuild_preserves {T : Type} (t : CustomHashSet T) (n c : Nat) (hn : 1 ≤ n)
    (hinv : ∀ a b : T, t.eq_fn a b = true → t.hash_fn a = t.hash_fn b) :
    ∃ t', t.rebuild n c = some t' ∧
      t'.len = t.len ∧
      t'.buckets_required = n ∧
      t'.eq_fn = t.eq_fn ∧
      t'.hash_fn = t.hash_fn ∧
      (∀ (i : Nat) (b : List T) (e : T), t'.buckets[i]? = some b → e ∈ b →
        t.hash_fn e % n = i) ∧
      (∀ x : T, t.contains x = some true → t'.contains x = some true) ∧
      (∀ f : T → T → Bool,
        CustomHashSet.rebuild { t with eq_fn := f } n c = some { t' with eq_fn := f }) := by
  obtain ⟨bs', hfold, hlen', hflat, hmem, hplace⟩ :=
    rebuild_fold t.hash_fn n hn t.buckets.flatten (create_buckets T n)
      (by simp [create_buckets])
  have hplaced : ∀ (i : Nat) (b : List T) (e : T), bs'[i]? = some b → e ∈ b →
      t.hash_fn e % n = i := by
    apply hplace
    intro i b e hbi he
    exfalso
    have hbmem : b ∈ create_buckets T n := List.getElem?_mem hbi
    have : b = [] := List.eq_of_mem_replicate (by simpa [create_buckets] using hbmem)
    subst this
    simp at he
  have hzero : (create_buckets T n).flatten.length = 0 := by
    simp [create_buckets, List.length_flatten, List.map_replicate, List.sum_replicate]
  refine ⟨{ t with buckets := bs', buckets_required := n }, ?_, ?_, rfl, rfl, rfl,
    hplaced, ?_, ?_⟩
  · simp [CustomHashSet.rebuild, hfold]
  · rw [CustomHashSet.len_eq_flatten_length, CustomHashSet.len_eq_flatten_length]
    show bs'.flatten.length = t.buckets.flatten.length
    rw [hflat, hzero]
    omega
  · intro x hx
    unfold CustomHashSet.contains at hx
    rcases hmod : rustMod (t.hash_fn x) t.buckets_required with _ | idx
    · rw [hmod] at hx; simp at hx
    rw [hmod] at hx
    simp only [Option.bind_eq_bind, Option.some_bind] at hx
    rcases hbk : t.buckets[idx]? with _ | b
    · rw [hbk] at hx; simp at hx
    rw [hbk] at hx
    simp at hx
    obtain ⟨y, hyb, hyx⟩ := hx
    have hymem : y ∈ t.buckets.flatten :=
      List.mem_flatten.mpr ⟨b, List.getElem?_mem hbk, hyb⟩
    have hymem' : y ∈ bs'.flatten := (hmem y).mpr (Or.inr hymem)
    obtain ⟨by', hby'mem, hyby'⟩ := List.mem_flatten.mp hymem'
    obtain ⟨j, hj⟩ := List.mem_iff_getElem?.mp hby'mem
    have hjdx : t.hash_fn y % n = j := hplaced j by' y hj hyby'
    have hhash : t.hash_fn y = t.hash_fn x := hinv y x hyx
    obtain ⟨b2, hb2, hcon⟩ := CustomHashSet.contains_eq_bucket
      { t with buckets := bs', buckets_required := n } x hn hlen'
    have hb2' : bs'[t.hash_fn x % n]? = some b2 := hb2
    have hxj : t.hash_fn x % n = j := by rw [← hhash, hjdx]
    rw [hxj, hj] at hb2'
    obtain rfl : by' = b2 := Option.some_inj.mp hb2'
    rw [hcon]
    exact congrArg some (List.any_eq_true.mpr ⟨y, hyby', hyx⟩)
  · intro f
    have hrw : CustomHashSet.rebuild { t with eq_fn := f } n c =
        (t.buckets.flatten.foldlM (CustomHashSet.placeItem t.hash_fn n)
            (create_buckets T n)).bind
          (fun nb => some
            { buckets := nb
              buckets_required := n
              eq_fn := f
              hash_fn := t.hash_fn }) := rfl
    rw [hrw, hfold]
    rfl

/-- Witness for C6: rebuilding the concrete table `tblA` (3 elements, 2
buckets) into 3 buckets succeeds and keeps `len` at 3. -/
theorem rebuild_preserves_witness :
    (tblA.rebuild 3 5).map CustomHashSet.len = some tblA.len := by
  obtain ⟨t', hreb, hlen, _, _, _, _, _, _⟩ :=
    rebuild_preserves tblA 3 5 (by decide)
      (by intro a b h
          have hab : a = b := by simpa [tblA, natEq] using h
          rw [hab])
  rw [hreb]
  simp [hlen]

theorem insert_preserves {T : Type} (t : CustomHashSet T) (v : T)
    (hn : 1 ≤ t.buckets_required) (hwf : t.wf) :
    ∃ t' r, t.insert v = some (t', r) ∧ t'.wf ∧
      t'.buckets_required = t.buckets_required := by
  obtain ⟨b, hb, hcases⟩ := t.insert_cases v hn hwf
  rcases hcases with ⟨_, h⟩ | ⟨_, h⟩
  · exact ⟨t, false, h, hwf, rfl⟩
  · refine ⟨_, true, h, ?_, rfl⟩
    show (t.buckets.set (t.hash_fn v % t.buckets_required) (b ++ [v])).length =
      t.buckets_required
    rw [List.length_set]
    exact hwf

theorem remove_preserves {T : Type} (t : CustomHashSet T) (v : T)
    (hn : 1 ≤ t.buckets_required) (hwf : t.wf) :
    ∃ t' r, t.remove v = some (t', r) ∧ t'.wf ∧
      t'.buckets_required = t.buckets_required := by
  have hlt := t.bucketIdx_lt v hn hwf
  have hb : t.buckets[t.hash_fn v % t.buckets_required]? =
      some t.buckets[t.hash_fn v % t.buckets_required] := List.getElem?_eq_getElem hlt
  rcases hf : (t.buckets[t.hash_fn v % t.buckets_required]).findIdx?
      (fun x => t.eq_fn x v) with _ | pos
  · refine ⟨t, false, ?_, hwf, rfl⟩
    simp [CustomHashSet.remove, rustMod_of_pos _ _ hn, hb, hf]
  · refine ⟨{ t with buckets := t.buckets.set (t.hash_fn v % t.buckets_required) ((t.buckets[t.hash_fn v % t.buckets_required]).eraseIdx pos) }, true, ?_, ?_, rfl⟩
    · simp [CustomHashSet.remove, rustMod_of_pos _ _ hn, hb, hf]
    · show (t.buckets.set (t.hash_fn v % t.buckets_required)
        ((t.buckets[t.hash_fn v % t.buckets_required]).eraseIdx pos)).length =
        t.buckets_required
      rw [List.length_set]
      exact hwf

theorem runOps_isSome {T : Type} : ∀ (ops : List (TableOp T)) (t : CustomHashSet T),
    t.wf → 1 ≤ t.buckets_required →
    ∃ t', t.runOps ops = some t' ∧ t'.wf ∧
      t'.buckets_required = t.buckets_required := by
  intro ops
  induction ops with
  | nil => intro t hwf hn; exact ⟨t, rfl, hwf, rfl⟩
  | cons op ops ih =>
    intro t hwf hn
    cases op with
    | ins v =>
      obtain ⟨t₁, r, hins, hwf₁, hbr₁⟩ := insert_preserves t v hn hwf
      obtain ⟨t', hrun, hwf', hbr'⟩ := ih t₁ hwf₁ (by rw [hbr₁]; exact hn)
      refine ⟨t', ?_, hwf', by rw [hbr', hbr₁]⟩
      simp [CustomHashSet.runOps, CustomHashSet.runOp, hins, hrun]
    | rem v =>
      obtain ⟨t₁, r, hrem, hwf₁, hbr₁⟩ := remove_preserves t v hn hwf
      obtain ⟨t', hrun, hwf', hbr'⟩ := ih t₁ hwf₁ (by rw [hbr₁]; exact hn)
      refine ⟨t', ?_, hwf', by rw [hbr', hbr₁]⟩
      simp [CustomHashSet.runOps, CustomHashSet.runOp, hrem, hrun]
    | con v =>
      obtain ⟨cv, hc⟩ := t.contains_isSome v hn hwf
      obtain ⟨t', hrun, hwf', hbr'⟩ := ih t hwf hn
      refine ⟨t', ?_, hwf', hbr'⟩
      simp [CustomHashSet.runOps, CustomHashSet.runOp, hc, hrun]

/-- C7: starting from `new` with `bucket_count >= 1`, every sequence of
`insert`, `remove` and `contains` calls runs without a panic (every bucket
index stays in bounds, no modulo by zero); `insert` returning `false` is
just the duplicate outcome inside this normal execution, not a failure. -/
theorem table_ops_never_panic {T : Type} (eq_fn : T → T → Bool) (hash_fn : T → Nat)
    (n c : Nat) (hn : 1 ≤ n) (ops : List (TableOp T)) :
    ∃ t', (CustomHashSet.new eq_fn hash_fn n c).runOps ops = some t' := by
  obtain ⟨t', h, _, _⟩ := runOps_isSome ops (CustomHashSet.new eq_fn hash_fn n c)
    (by show (create_buckets T n).length = n; simp [create_buckets]) hn
  exact ⟨t', h⟩

/-- Witness for C7: a concrete call sequence with a duplicate insert, a
lookup and a removal runs to completion on a fresh two-bucket table. -/
theorem table_ops_never_panic_witness :
    ((CustomHashSet.new natEq natId 2 4).runOps
      [TableOp.ins 1, TableOp.ins 1, TableOp.con 1, TableOp.rem 1]).isSome = true := by
  obtain ⟨t', h⟩ := table_ops_never_panic natEq natId 2 4 (by decide)
    [TableOp.ins 1, TableOp.ins 1, TableOp.con 1, TableOp.rem 1]
  rw [h]
  rfl

/-- C3: for each of the three identity strategies implemented for
`FileData` (`UniqueName`, `UniqueNameSize`, `UniqueHash`), `equal(a,b)`
implies `hash(a) = hash(b)`.  Each `Hash` impl feeds exactly the fields its
`PartialEq` compares (or a subset of them) to the hasher, so the statement
is quantified over an arbitrary hasher-determined function of those
fields. -/
theorem strategy_equal_implies_hash_equal :
    (∀ (hasher : String → Nat) (a b : FileData),
      eqName a b = true → hashName hasher a = hashName hasher b) ∧
    (∀ (hasher : String → Nat → Nat) (a b : FileData),
      eqNameSize a b = true → hashNameSize hasher a = hashNameSize hasher b) ∧
    (∀ (hasher : Sha2Value → Nat) (a b : FileData),
      eqHash a b = true → hashHash hasher a = hashHash hasher b) := by
  refine ⟨?_, ?_, ?_⟩
  · intro hasher a b hab
    simp only [eqName, beq_iff_eq] at hab
    simp [hashName, hab]
  · intro hasher a b hab
    simp only [eqNameSize, Bool.and_eq_true, beq_iff_eq] at hab
    simp [hashNameSize, hab.1, hab.2]
  · intro hasher a b hab
    simp only [eqHash, Bool.and_eq_true, decide_eq_true_eq, beq_iff_eq] at hab
    simp [hashHash, hab.1]

/-- Witness for C3: two records sharing the file name `cat.txt` are
`eqName`-equal, and any hash of the name (here the length) agrees. -/
theorem strategy_equal_implies_hash_equal_witness :
    eqName fdCat fdCatB = true ∧
    hashName String.length fdCat = hashName String.length fdCatB :=
  ⟨by decide, strategy_equal_implies_hash_equal.1 String.length fdCat fdCatB (by decide)⟩

/-- C5 counterexample: under the `Hash` variant the source compares the
digest AND the size (filedata.rs:141-145, `self.hash == other.hash &&
self.size == other.size`), so two records with the same digest but
different sizes are NOT equal, refuting "the digest alone decides
equality". -/
theorem hash_mode_digest_only_counterexample :
    fdCat.hash = fdZero.hash ∧ eqHash fdCat fdZero = false :=
  ⟨rfl, by decide⟩

/-- C5 (amended): under the `Hash` variant, equality between two file
records holds exactly when both the content digest and the size agree; the
file name and path play no part. -/
theorem hash_mode_equality_digest_and_size (a b : FileData) :
    eqHash a b = true ↔ (a.hash = b.hash ∧ a.size = b.size) := by
  simp [eqHash]

/-- C4 counterexample: `CustomHashSet::new` performs no check at all on
`buckets_required` — calling it with 0 succeeds and returns a table with an
empty bucket vector; only the first use (here `insert`) hits the
modulo-by-zero panic. -/
theorem new_zero_bucket_counterexample :
    (CustomHashSet.new natEq natId 0 4).buckets_required = 0 ∧
    (CustomHashSet.new natEq natId 0 4).buckets = [] ∧
    (CustomHashSet.new natEq natId 0 4).insert 7 = none :=
  ⟨rfl, rfl, rfl⟩

/-- C4 (amended): the constructor silently accepts `bucket_count = 0`,
building a table with zero buckets; the failure is deferred to the first
`insert`/`contains`/`remove` call, each of which panics (modulo by zero)
instead of the constructor rejecting the call. -/
theorem new_zero_bucket_amended {T : Type} (eq_fn : T → T → Bool)
    (hash_fn : T → Nat) (c : Nat) :
    (CustomHashSet.new eq_fn hash_fn 0 c).buckets_required = 0 ∧
    (CustomHashSet.new eq_fn hash_fn 0 c).buckets = [] ∧
    (∀ v : T, (CustomHashSet.new eq_fn hash_fn 0 c).insert v = none ∧
      (CustomHashSet.new eq_fn hash_fn 0 c).contains v = none ∧
      (CustomHashSet.new eq_fn hash_fn 0 c).remove v = none) :=
  ⟨rfl, rfl, fun _ => ⟨rfl, rfl, rfl⟩⟩

theorem string_isEmpty_eq_data_isEmpty (s : String) : s.isEmpty = s.data.isEmpty := by
  rcases s with ⟨d⟩
  cases d with
  | nil => rfl
  | cons c cs =>
    have h1 : (String.mk (c :: cs)).isEmpty = false := by
      rw [Bool.eq_false_iff]
      intro hcon
      have h2 := (String.isEmpty_iff _).mp hcon
      exact absurd (congrArg String.data h2) (by simp)
    rw [h1]
    rfl

/-- C8: parsing the comparison mode is ASCII-case-insensitive over the
tokens `name`, `namesize`, `hash` (the parse result only depends on the
case-folded string); a missing or empty value yields the default `Name`;
the three tokens map to their variants; and every other token fails with
strum's variant-not-found error. -/
theorem parse_comparer_cases :
    parse_comparer none = .ok .Name ∧
    parse_comparer (some "") = .ok .Name ∧
    (∀ s1 s2 : String,
      s1.data.map (fun c => asciiLowerCode c.toNat) =
        s2.data.map (fun c => asciiLowerCode c.toNat) →
      parse_comparer (some s1) = parse_comparer (some s2)) ∧
    (parse_comparer (some "name") = .ok .Name ∧
      parse_comparer (some "namesize") = .ok .NameSize ∧
      parse_comparer (some "hash") = .ok .Hash) ∧
    (∀ s : String, s.isEmpty = false →
      eqIgnoreAsciiCase s "name" = false →
      eqIgnoreAsciiCase s "namesize" = false →
      eqIgnoreAsciiCase s "hash" = false →
      parse_comparer (some s) = .error .VariantNotFound) := by
  refine ⟨rfl, rfl, ?_, ⟨rfl, rfl, rfl⟩, ?_⟩
  · intro s1 s2 hmap
    have hlen : s1.data.length = s2.data.length := by
      have := congrArg List.length hmap
      simpa using this
    have hemp : s1.isEmpty = s2.isEmpty := by
      rw [string_isEmpty_eq_data_isEmpty, string_isEmpty_eq_data_isEmpty]
      cases hc1 : s1.data with
      | nil =>
        cases hc2 : s2.data with
        | nil => rfl
        | cons d ds => rw [hc1, hc2] at hlen; simp at hlen
      | cons c cs =>
        cases hc2 : s2.data with
        | nil => rw [hc1, hc2] at hlen; simp at hlen
        | cons d ds => rfl
    have h1 : eqIgnoreAsciiCase s1 "name" = eqIgnoreAsciiCase s2 "name" := by
      simp only [eqIgnoreAsciiCase, hmap]
    have h2 : eqIgnoreAsciiCase s1 "namesize" = eqIgnoreAsciiCase s2 "namesize" := by
      simp only [eqIgnoreAsciiCase, hmap]
    have h3 : eqIgnoreAsciiCase s1 "hash" = eqIgnoreAsciiCase s2 "hash" := by
      simp only [eqIgnoreAsciiCase, hmap]
    simp only [parse_comparer, FileDataCompareOption.fromString, hemp, h1, h2, h3]
  · intro s hemp h1 h2 h3
    simp only [parse_comparer, FileDataCompareOption.fromString, hemp, h1, h2, h3,
      Bool.false_eq_true, if_false]

/-- Witness for C8: a mixed-case token parses to its variant and an unknown
token is rejected. -/
theorem parse_comparer_cases_witness :
    parse_comparer (some "NaMe") = .ok .Name ∧
    parse_comparer (some "bogus") = .error .VariantNotFound := by
  obtain ⟨_, _, hcase, ⟨hname, _, _⟩, herr⟩ := parse_comparer_cases
  constructor
  · rw [hcase "NaMe" "name" (by decide)]
    exact hname
  · exact herr "bogus" (by decide) (by decide) (by decide) (by decide)

/-- C10: under the `Name` and `NameSize` modes a scan never invokes the
content-digest collaborator — every produced record carries the fixed
`Sha2Value::default()` (all 32 bytes zero) and the scan succeeds even when
the digest function always fails; only under `Hash` mode is the real digest
computed and stored in each record. -/
theorem scan_folder_digest_policy (d : String → Except Unit Sha2Value)
    (comparer : FileDataCompareOption) (entries : List DirEntry) :
    (comparer ≠ .Hash →
      scan_folder d comparer entries =
        .ok (entries.map (fun e =>
          { filename := e.fname, path := e.fpath, size := e.fsize,
            hash := Sha2Value.zeroDefault }))) ∧
    Sha2Value.zeroDefault.bytes = List.replicate 32 0 ∧
    (∀ l : List FileData, scan_folder d .Hash entries = .ok l →
      ∀ r ∈ l, d r.path = .ok r.hash) := by
  refine ⟨?_, rfl, ?_⟩
  · intro hne
    cases comparer with
    | Hash => exact absurd rfl hne
    | Name =>
      induction entries with
      | nil => rfl
      | cons e es ih =>
        have hcons : scan_folder d .Name (e :: es) =
            (scan_folder d .Name es).bind (fun rest =>
              .ok ({ filename := e.fname, path := e.fpath, size := e.fsize,
                     hash := Sha2Value.zeroDefault } :: rest)) := rfl
        rw [hcons, ih]
        rfl
    | NameSize =>
      induction entries with
      | nil => rfl
      | cons e es ih =>
        have hcons : scan_folder d .NameSize (e :: es) =
            (scan_folder d .NameSize es).bind (fun rest =>
              .ok ({ filename := e.fname, path := e.fpath, size := e.fsize,
                     hash := Sha2Value.zeroDefault } :: rest)) := rfl
        rw [hcons, ih]
        rfl
  · induction entries with
    | nil =>
      intro l hl r hr
      obtain rfl : l = [] := (Except.ok.inj hl).symm
      simp at hr
    | cons e es ih =>
      intro l hl r hr
      have hcons : scan_folder d .Hash (e :: es) =
          (d e.fpath).bind (fun h =>
            (scan_folder d .Hash es).bind (fun rest =>
              .ok ({ filename := e.fname, path := e.fpath, size := e.fsize,
                     hash := h } :: rest))) := rfl
      rw [hcons] at hl
      rcases hd : d e.fpath with err | hv
      · rw [hd] at hl
        have hcontra : (Except.error err : Except Unit (List FileData)) = Except.ok l := hl
        exact Except.noConfusion hcontra
      rw [hd] at hl
      rcases hrec : scan_folder d .Hash es with err | rest
      · rw [hrec] at hl
        have hcontra : (Except.error err : Except Unit (List FileData)) = Except.ok l := hl
        exact Except.noConfusion hcontra
      rw [hrec] at hl
      have hl2 := Except.ok.inj hl
      subst hl2
      rcases List.mem_cons.mp hr with hr1 | hr2
      · subst hr1
        exact hd
      · exact ih rest hrec r hr2

/-- Witness for C10: scanning one entry under `Name` mode with an
always-failing digest collaborator still succeeds and stores the all-zero
default digest. -/
theorem scan_folder_digest_policy_witness :
    scan_folder failingDigest FileDataCompareOption.Name [entryCat] =
      .ok [{ filename := "cat.txt", path := "a/cat.txt", size := 10,
             hash := Sha2Value.zeroDefault }] := by
  have h := (scan_folder_digest_policy failingDigest FileDataCompareOption.Name
    [entryCat]).1 (by decide)
  rw [h]
  rfl
